import Mathlib

/-!
Verification development for the qba-tracker collector engine.

The numeric and state-manipulating parts of the collector are embedded
shallowly over `ℚ`: JavaScript numbers become rationals, `null`/missing
fields become `Option`, the in-memory `Map` of tracked pairs becomes an
association list, and the asynchronous tasks become explicit operation
sequences folded over a state type.

Embedded modules:
* `rsi.js` (`computeRSI`) — Wilder's-smoothing RSI;
* `collector.js` (`runDiscovery`, `getStats`, OHLCV/ATH update);
* `fetcher.js` (`fetchWithRetry`, the discovery filters);
* `rateLimiter.js` (`TokenBucketLimiter`);
* `index.js` (the `/api/stream` SSE handler).
-/

namespace QBA

/-! ### IndicatorEngine: `computeRSI` (rsi.js)

The source iterates `closes[i] - closes[i-1]` for `i = 1 .. period` to seed
the averages and for `i = period+1 .. closes.length-1` to smooth them; these
index ranges are exactly `take period` and `drop period` of the delta list. -/

/-- Consecutive price deltas `closes[i] - closes[i-1]`, oldest first. -/
def deltas (l : List ℚ) : List ℚ := List.zipWith (fun a b => a - b) l.tail l

/-- One step of the seeding loop: `if (change > 0) avgGain += change;
else avgLoss += Math.abs(change);` accumulating raw sums. -/
def seedStep (gl : ℚ × ℚ) (c : ℚ) : ℚ × ℚ :=
  if 0 < c then (gl.1 + c, gl.2) else (gl.1, gl.2 + |c|)

/-- One step of the smoothing loop: `gain = change > 0 ? change : 0`,
`loss = change < 0 ? Math.abs(change) : 0`, then Wilder's update. -/
def smoothStep (period : ℕ) (gl : ℚ × ℚ) (c : ℚ) : ℚ × ℚ :=
  ((gl.1 * ((period : ℚ) - 1) + (if 0 < c then c else 0)) / (period : ℚ),
   (gl.2 * ((period : ℚ) - 1) + (if c < 0 then |c| else 0)) / (period : ℚ))

/-- `computeRSI(closes, period)` from rsi.js: `null` when fewer than
`period+1` closes, otherwise seeded averages plus Wilder's smoothing, with
the `avgLoss === 0 → 100` edge case. -/
def computeRSI (closes : List ℚ) (period : ℕ) : Option ℚ :=
  if closes.length < period + 1 then none
  else
    let ds := deltas closes
    let seed := (ds.take period).foldl seedStep (0, 0)
    let fin := (ds.drop period).foldl (smoothStep period)
      (seed.1 / (period : ℚ), seed.2 / (period : ℚ))
    some (if fin.2 = 0 then 100 else 100 - 100 / (1 + fin.1 / fin.2))

/-! Spec-side restatement of the same algorithm, written from the words of
§4.4: means of positive parts / absolute negative parts, then the recursive
Wilder update on each later delta. -/

/-- Positive part of a delta, as the spec words it. -/
def posPart (d : ℚ) : ℚ := max d 0

/-- Magnitude of the negative part of a delta, as the spec words it. -/
def negPartAbs (d : ℚ) : ℚ := max (-d) 0

/-- Wilder's smoothing update on the (avgGain, avgLoss) pair. -/
def wilderStep (period : ℕ) (gl : ℚ × ℚ) (d : ℚ) : ℚ × ℚ :=
  ((gl.1 * ((period : ℚ) - 1) + posPart d) / (period : ℚ),
   (gl.2 * ((period : ℚ) - 1) + negPartAbs d) / (period : ℚ))

/-- The RSI value described by the spec for a sufficiently long close list:
seed averages are means over the first `period` deltas, later deltas are
folded through Wilder's smoothing, and the final value is `100` when the
average loss is zero and `100 - 100/(1+RS)` otherwise. -/
def rsiSpec (closes : List ℚ) (period : ℕ) : ℚ :=
  let ds := deltas closes
  let g0 := ((ds.take period).map posPart).sum / (period : ℚ)
  let l0 := ((ds.take period).map negPartAbs).sum / (period : ℚ)
  let fin := (ds.drop period).foldl (wilderStep period) (g0, l0)
  if fin.2 = 0 then 100 else 100 - 100 / (1 + fin.1 / fin.2)

theorem seedStep_fold (ds : List ℚ) (g l : ℚ) :
    ds.foldl seedStep (g, l) =
      (g + (ds.map posPart).sum, l + (ds.map negPartAbs).sum) := by
  induction ds generalizing g l with
  | nil => simp
  | cons c rest ih =>
      simp only [List.foldl_cons, List.map_cons, List.sum_cons, seedStep]
      rcases lt_or_le 0 c with h | h
      · rw [if_pos h, ih]
        have hp : posPart c = c := max_eq_left h.le
        have hn : negPartAbs c = 0 := max_eq_right (by linarith)
        rw [hp, hn]; ring_nf
      · rw [if_neg (not_lt.mpr h), ih]
        have hp : posPart c = 0 := max_eq_right h
        have hn : negPartAbs c = -c := max_eq_left (by linarith)
        have habs : |c| = -c := abs_of_nonpos h
        rw [hp, hn, habs]; ring_nf

theorem smoothStep_eq_wilderStep (period : ℕ) :
    smoothStep period = wilderStep period := by
  funext gl c
  simp only [smoothStep, wilderStep, posPart, negPartAbs]
  rcases lt_trichotomy c 0 with h | h | h
  · rw [if_neg (by linarith), if_pos h, max_eq_right h.le,
      max_eq_left (by linarith), abs_of_neg h]
  · simp [h]
  · rw [if_pos h, if_neg (by linarith), max_eq_left h.le,
      max_eq_right (by linarith)]

/-- C1: for every close list of length at least `period+1` (and a positive
period), `computeRSI` returns exactly the Wilder's-smoothing RSI described
by the spec: seed averages are the means of the positive parts / absolute
negative parts of the first `period` deltas, each later delta is folded
through `avg ↦ (avg*(period-1) + part)/period`, and the final value is 100
when the smoothed average loss is zero and `100 - 100/(1+RS)` otherwise. -/
theorem computeRSI_eq_rsiSpec (closes : List ℚ) (period : ℕ)
    (hp : 0 < period) (h : period + 1 ≤ closes.length) :
    computeRSI closes period = some (rsiSpec closes period) := by
  have hguard : ¬ closes.length < period + 1 := not_lt.mpr h
  unfold computeRSI rsiSpec
  rw [if_neg hguard]
  simp only [seedStep_fold, smoothStep_eq_wilderStep, zero_add]

/-- Witness for C1 at a concrete input: closes `[1, 2, 1, 3]` with period 2. -/
theorem computeRSI_eq_rsiSpec_witness :
    computeRSI [1, 2, 1, 3] 2 = some (rsiSpec [1, 2, 1, 3] 2) :=
  computeRSI_eq_rsiSpec [1, 2, 1, 3] 2 (by decide) (by decide)

/-- C5: for every close list with fewer than `period+1` elements,
`computeRSI` returns the not-enough-data sentinel `none` — never a
numeric value. -/
theorem computeRSI_short_input (closes : List ℚ) (period : ℕ)
    (h : closes.length < period + 1) :
    computeRSI closes period = none := by
  unfold computeRSI
  rw [if_pos h]

/-- Witness for C5: the empty close list with the default period 14. -/
theorem computeRSI_short_input_witness : computeRSI [] 14 = none :=
  computeRSI_short_input [] 14 (by decide)

/-! ### PairStore: tracked pairs and the discovery merge (collector.js)

The in-memory `Map<pairAddress, PairData>` becomes an association list with
JavaScript `Map` semantics: `set` on an existing key updates in place, `set`
on a fresh key appends, iteration order is insertion order.  `null` and
absent JSON fields both become `none`. -/

/-- One OHLCV candle `{t, o, h, l, c, v}`. -/
structure Candle where
  t : ℤ
  o : ℚ
  h : ℚ
  l : ℚ
  c : ℚ
  v : ℚ
  deriving DecidableEq, Repr

/-- A tracked pair's record as stored in the collector's map (the object
literal built by `runDiscovery`; the `pairAddress` itself is the map key). -/
structure PairData where
  baseTokenSymbol : String
  baseTokenName : String
  dexId : String
  url : String
  priceUsd : Option ℚ
  marketCap : Option ℚ
  liquidity : Option ℚ
  volume24h : Option ℚ
  priceChange24h : Option ℚ
  pairCreatedAt : Option ℤ
  imageUrl : Option String
  rsi5m : Option ℚ
  rsi15m : Option ℚ
  ath : Option ℚ
  candles5m : List Candle
  updatedAt : ℤ
  deriving DecidableEq, Repr

/-- A raw candidate record returned by a discovery endpoint.  Numeric JSON
fields are rationals (`priceUsd` arrives as a string and is parsed with
`parseFloat`; we model the parsed value directly, `none` for absent or
unparsable).  `baseToken` carries `(symbol, name)`. -/
structure RawPair where
  pairAddress : Option String
  address : Option String
  chainId : Option String
  baseToken : Option (String × String)
  dexId : Option String
  url : Option String
  priceUsd : Option ℚ
  marketCap : Option ℚ
  fdv : Option ℚ
  liquidityUsd : Option ℚ
  volumeH24 : Option ℚ
  priceChangeH24 : Option ℚ
  pairCreatedAt : Option ℤ
  imageUrl : Option String
  deriving DecidableEq, Repr

/-- The store: an association list keyed by pair address. -/
abbrev Store := List (String × PairData)

/-- `Map.get` — the first binding of the address, if any. -/
def lookupStore : Store → String → Option PairData
  | [], _ => none
  | (k, v) :: rest, a => if k = a then some v else lookupStore rest a

/-- `Map.set` on a key known to be present: update every binding in place. -/
def updAssoc (st : Store) (a : String) (f : PairData → PairData) : Store :=
  st.map fun kv => if kv.1 = a then (kv.1, f kv.2) else kv

/-- The fresh record inserted for a newly discovered address: market and
identity fields from the raw record (`?? null` defaults), indicator fields
unset (`rsi5m/rsi15m/ath = null`, `candles5m = []`). -/
def parsePairFromDiscovery (raw : RawPair) (now : ℤ) : PairData :=
  { baseTokenSymbol := (raw.baseToken.getD ("???", "Unknown")).1
    baseTokenName := (raw.baseToken.getD ("???", "Unknown")).2
    dexId := raw.dexId.getD ""
    url := raw.url.getD ""
    priceUsd := raw.priceUsd
    marketCap := raw.marketCap.orElse fun _ => raw.fdv
    liquidity := raw.liquidityUsd
    volume24h := raw.volumeH24
    priceChange24h := raw.priceChangeH24
    pairCreatedAt := raw.pairCreatedAt
    imageUrl := raw.imageUrl
    rsi5m := none
    rsi15m := none
    ath := none
    candles5m := []
    updatedAt := now }

/-- The `else` branch of the collector.js merge loop: refresh live market
fields from the raw record, falling back to the cached value when the raw
field is absent (`??`); identity fields, creation time and all indicator
fields are left untouched. -/
def refreshFromDiscovery (existing : PairData) (raw : RawPair) (now : ℤ) :
    PairData :=
  { existing with
    priceUsd := raw.priceUsd.orElse fun _ => existing.priceUsd
    marketCap := (raw.marketCap.orElse fun _ => raw.fdv).orElse
      fun _ => existing.marketCap
    liquidity := raw.liquidityUsd.orElse fun _ => existing.liquidity
    volume24h := raw.volumeH24.orElse fun _ => existing.volume24h
    priceChange24h := raw.priceChangeH24.orElse
      fun _ => existing.priceChange24h
    imageUrl := raw.imageUrl.orElse fun _ => existing.imageUrl
    updatedAt := now }

/-- Addresses carried by a discovery result (`raw.pairAddress`, records
without one are skipped). -/
def discoveredAddrs (raws : List RawPair) : List String :=
  raws.filterMap RawPair.pairAddress

/-- One iteration of the collector.js merge loop (src/server/src/collector.js
lines 142–182): skip address-less records, refresh already-tracked pairs,
insert fresh pairs with unset indicators. -/
def discStep (now : ℤ) (st : Store) (raw : RawPair) : Store :=
  match raw.pairAddress with
  | none => st
  | some addr =>
      if (lookupStore st addr).isSome then
        updAssoc st addr fun p => refreshFromDiscovery p raw now
      else st ++ [(addr, parsePairFromDiscovery raw now)]

/-- The collector.js discovery merge: fold the loop over the raw records,
then delete every tracked address that the result did not mention. -/
def mergeDiscovery (st : Store) (raws : List RawPair) (now : ℤ) : Store :=
  (raws.foldl (discStep now) st).filter fun kv =>
    decide (kv.1 ∈ discoveredAddrs raws)

/-- Key of a record in the part_002 revision: `raw.pairAddress || raw.address`. -/
def addrV0 (raw : RawPair) : Option String :=
  raw.pairAddress.orElse fun _ => raw.address

/-- One iteration of the part_002 revision's merge loop (src/unnamed/part_002
lines 86–126): already-tracked pairs are left completely untouched — there
is no refresh branch. -/
def discStepV0 (now : ℤ) (st : Store) (raw : RawPair) : Store :=
  match addrV0 raw with
  | none => st
  | some addr =>
      if (lookupStore st addr).isSome then st
      else st ++ [(addr, parsePairFromDiscovery raw now)]

/-- The part_002 revision's discovery merge. -/
def mergeDiscoveryV0 (st : Store) (raws : List RawPair) (now : ℤ) : Store :=
  (raws.foldl (discStepV0 now) st).filter fun kv =>
    decide (kv.1 ∈ raws.filterMap addrV0)

/-- A discovery cycle around the merge: `none` models a fetch that threw
(the `catch` branch keeps the last known pair list), an empty list hits the
`if (!rawPairs.length) return` guard.  The boolean records whether an
`update` event was broadcast. -/
def runDiscovery (fetched : Option (List RawPair)) (st : Store) (now : ℤ) :
    Store × Bool :=
  match fetched with
  | none => (st, false)
  | some raws =>
      if raws.isEmpty then (st, false) else (mergeDiscovery st raws now, true)

/-- C3: a discovery cycle whose fetch failed or produced no candidates
leaves the pair store exactly as it was and broadcasts nothing. -/
theorem runDiscovery_empty_keeps_store (fetched : Option (List RawPair))
    (st : Store) (now : ℤ) (h : fetched = none ∨ fetched = some []) :
    runDiscovery fetched st now = (st, false) := by
  rcases h with h | h <;> subst h <;> rfl

/-- A concrete tracked pair used to instantiate theorems. -/
def samplePairA : PairData :=
  { baseTokenSymbol := "AAA"
    baseTokenName := "Token A"
    dexId := "pumpswap"
    url := "https://dexscreener.com/solana/A"
    priceUsd := some 1
    marketCap := some 40000
    liquidity := some 12000
    volume24h := some 90000
    priceChange24h := some 5
    pairCreatedAt := some 1000
    imageUrl := none
    rsi5m := some 65
    rsi15m := some 55
    ath := some 2
    candles5m := []
    updatedAt := 0 }

/-- Witness for C3: an empty candidate list over a one-pair store. -/
theorem runDiscovery_empty_keeps_store_witness :
    runDiscovery (some []) [("A", samplePairA)] 3 =
      ([("A", samplePairA)], false) :=
  runDiscovery_empty_keeps_store (some []) [("A", samplePairA)] 3
    (Or.inr rfl)

theorem lookupStore_updAssoc (st : Store) (a b : String)
    (f : PairData → PairData) :
    lookupStore (updAssoc st a f) b =
      if a = b then (lookupStore st b).map f else lookupStore st b := by
  induction st with
  | nil => by_cases h : a = b <;> simp [updAssoc, lookupStore, h]
  | cons kv rest ih =>
      obtain ⟨k, v⟩ := kv
      have hstep : updAssoc ((k, v) :: rest) a f =
          (if k = a then (k, f v) else (k, v)) :: updAssoc rest a f := rfl
      rw [hstep]
      by_cases hka : k = a
      · rw [if_pos hka]
        by_cases hkb : k = b
        · have hab : a = b := hka.symm.trans hkb
          simp [lookupStore, hkb, hab]
        · have hab : ¬ a = b := fun h => hkb (hka.trans h)
          simp [lookupStore, hkb, hab, ih]
      · rw [if_neg hka]
        by_cases hkb : k = b
        · have hab : ¬ a = b := fun h => hka (hkb.trans h.symm)
          simp [lookupStore, hkb, hab]
        · simp [lookupStore, hkb, ih]

theorem lookupStore_append_of_isSome (st st2 : Store) (b : String)
    (v : PairData) (h : lookupStore st b = some v) :
    lookupStore (st ++ st2) b = some v := by
  induction st with
  | nil => cases h
  | cons kv rest ih =>
      obtain ⟨k, w⟩ := kv
      by_cases hkb : k = b <;> simp_all [lookupStore]

theorem lookupStore_append_of_eq_none (st st2 : Store) (b : String)
    (h : lookupStore st b = none) :
    lookupStore (st ++ st2) b = lookupStore st2 b := by
  induction st with
  | nil => rfl
  | cons kv rest ih =>
      obtain ⟨k, w⟩ := kv
      by_cases hkb : k = b <;> simp_all [lookupStore]

theorem lookupStore_filter_mem (st : Store) (l : List String)
    (a : String) :
    lookupStore (st.filter fun kv => decide (kv.1 ∈ l)) a =
      if a ∈ l then lookupStore st a else none := by
  induction st with
  | nil => by_cases h : a ∈ l <;> simp [lookupStore, h]
  | cons kv rest ih =>
      obtain ⟨k, v⟩ := kv
      by_cases hk : k ∈ l
      · by_cases hka : k = a
        · have hal : a ∈ l := hka ▸ hk
          simp [List.filter_cons, lookupStore, hk, hka, hal]
        · simp [List.filter_cons, lookupStore, hk, hka, ih]
      · by_cases hka : k = a
        · have hal : a ∉ l := hka ▸ hk
          simp [List.filter_cons, lookupStore, hk, hka, hal, ih]
        · simp [List.filter_cons, lookupStore, hk, hka, ih]

/-- A single merge-loop iteration leaves every other address alone. -/
theorem discStep_lookup_other (now : ℤ) (st : Store) (raw : RawPair)
    (a : String) (ha : raw.pairAddress ≠ some a) :
    lookupStore (discStep now st raw) a = lookupStore st a := by
  cases hr : raw.pairAddress with
  | none => simp [discStep, hr]
  | some bAddr =>
      have hba : bAddr ≠ a := fun h => ha (by rw [hr, h])
      cases hsb : lookupStore st bAddr with
      | some q =>
          have hstep : discStep now st raw =
              updAssoc st bAddr fun p => refreshFromDiscovery p raw now := by
            simp [discStep, hr, hsb]
          rw [hstep, lookupStore_updAssoc, if_neg hba]
      | none =>
          have hstep : discStep now st raw =
              st ++ [(bAddr, parsePairFromDiscovery raw now)] := by
            simp [discStep, hr, hsb]
          rw [hstep]
          cases hsa : lookupStore st a with
          | none =>
              rw [lookupStore_append_of_eq_none _ _ _ hsa]
              simp [lookupStore, hba]
          | some p => exact lookupStore_append_of_isSome _ _ _ _ hsa

theorem foldl_discStep_lookup_of_not_mem (now : ℤ) (raws : List RawPair)
    (st : Store) (a : String) (ha : a ∉ discoveredAddrs raws) :
    lookupStore (raws.foldl (discStep now) st) a = lookupStore st a := by
  induction raws generalizing st with
  | nil => rfl
  | cons r rest ih =>
      have hra : r.pairAddress ≠ some a := by
        intro h
        exact ha (List.mem_filterMap.mpr ⟨r, List.mem_cons_self r rest, h⟩)
      have hrest : a ∉ discoveredAddrs rest := by
        intro h
        obtain ⟨r2, hr2, h2⟩ := List.mem_filterMap.mp h
        exact ha (List.mem_filterMap.mpr ⟨r2, List.mem_cons_of_mem r hr2, h2⟩)
      rw [List.foldl_cons, ih _ hrest, discStep_lookup_other now st r a hra]

theorem foldl_discStep_lookup (now : ℤ) (raws : List RawPair) (st : Store)
    (a : String) (hnd : (discoveredAddrs raws).Nodup) :
    lookupStore (raws.foldl (discStep now) st) a =
      match raws.find? (fun r => decide (r.pairAddress = some a)),
            lookupStore st a with
      | none, _ => lookupStore st a
      | some r, some p => some (refreshFromDiscovery p r now)
      | some r, none => some (parsePairFromDiscovery r now) := by
  induction raws generalizing st with
  | nil =>
      rw [List.find?_nil, List.foldl_nil]
  | cons r rest ih =>
      cases hr : r.pairAddress with
      | none =>
          have hstep : discStep now st r = st := by simp [discStep, hr]
          have hnd2 : (discoveredAddrs rest).Nodup := by
            simpa [discoveredAddrs, List.filterMap_cons, hr] using hnd
          have hpredF :
              ¬ ((fun x => decide (x.pairAddress = some a)) r = true) := by
            simp [hr]
          rw [List.foldl_cons, hstep,
            @List.find?_cons_of_neg RawPair
              (fun x => decide (x.pairAddress = some a)) r rest hpredF]
          exact ih st hnd2
      | some bAddr =>
          have hcons : discoveredAddrs (r :: rest) =
              bAddr :: discoveredAddrs rest := by
            simp [discoveredAddrs, List.filterMap_cons, hr]
          have hnd1 : (bAddr :: discoveredAddrs rest).Nodup := hcons ▸ hnd
          have hb : bAddr ∉ discoveredAddrs rest :=
            (List.nodup_cons.mp hnd1).1
          have hnd2 : (discoveredAddrs rest).Nodup :=
            (List.nodup_cons.mp hnd1).2
          by_cases hba : bAddr = a
          · have hpredT : (fun x => decide (x.pairAddress = some a)) r
                = true := by simp [hr, hba]
            have hbnm : a ∉ discoveredAddrs rest := by rw [← hba]; exact hb
            rw [List.foldl_cons,
              @List.find?_cons_of_pos RawPair
                (fun x => decide (x.pairAddress = some a)) r rest hpredT,
              foldl_discStep_lookup_of_not_mem now rest _ a hbnm]
            cases hsa : lookupStore st a with
            | some p =>
                have hstep : discStep now st r =
                    updAssoc st a fun q => refreshFromDiscovery q r now := by
                  simp [discStep, hr, hba, hsa]
                rw [hstep, lookupStore_updAssoc, if_pos rfl, hsa]
                rfl
            | none =>
                have hstep : discStep now st r =
                    st ++ [(a, parsePairFromDiscovery r now)] := by
                  simp [discStep, hr, hba, hsa]
                rw [hstep, lookupStore_append_of_eq_none _ _ _ hsa]
                simp [lookupStore]
          · have hpredF :
                ¬ ((fun x => decide (x.pairAddress = some a)) r = true) := by
              simp [hr, hba]
            have hother : lookupStore (discStep now st r) a
                = lookupStore st a :=
              discStep_lookup_other now st r a (by rw [hr]; simp [hba])
            rw [List.foldl_cons,
              @List.find?_cons_of_neg RawPair
                (fun x => decide (x.pairAddress = some a)) r rest hpredF,
              ih _ hnd2, hother]

theorem find?_pairAddress_eq_none (raws : List RawPair) (a : String) :
    raws.find? (fun r => decide (r.pairAddress = some a)) = none ↔
      a ∉ discoveredAddrs raws := by
  rw [List.find?_eq_none]
  constructor
  · intro h hmem
    obtain ⟨r, hr, hra⟩ := List.mem_filterMap.mp hmem
    exact absurd (by simp [hra] : (fun r => decide (r.pairAddress = some a)) r
      = true) (by simpa using h r hr)
  · intro h r hr hpred
    exact h (List.mem_filterMap.mpr ⟨r, hr, by simpa using hpred⟩)

theorem find?_pairAddress_of_nodup (raws : List RawPair) (a : String)
    (r : RawPair) (hnd : (discoveredAddrs raws).Nodup) (hr : r ∈ raws)
    (hra : r.pairAddress = some a) :
    raws.find? (fun x => decide (x.pairAddress = some a)) = some r := by
  induction raws with
  | nil => cases hr
  | cons r0 rest ih =>
      rcases List.mem_cons.mp hr with h0 | hmem
      · subst h0
        exact List.find?_cons_of_pos _ (by simp [hra])
      · by_cases h0 : r0.pairAddress = some a
        · exfalso
          have hconsAddrs : discoveredAddrs (r0 :: rest) =
              a :: discoveredAddrs rest := by
            simp [discoveredAddrs, List.filterMap_cons, h0]
          have hmema : a ∈ discoveredAddrs rest :=
            List.mem_filterMap.mpr ⟨r, hmem, hra⟩
          have hnd1 : (a :: discoveredAddrs rest).Nodup := hconsAddrs ▸ hnd
          exact (List.nodup_cons.mp hnd1).1 hmema
        · have hnd2 : (discoveredAddrs rest).Nodup := by
            cases h00 : r0.pairAddress with
            | none =>
                simpa [discoveredAddrs, List.filterMap_cons, h00] using hnd
            | some c =>
                have hconsAddrs : discoveredAddrs (r0 :: rest) =
                    c :: discoveredAddrs rest := by
                  simp [discoveredAddrs, List.filterMap_cons, h00]
                have hnd1 : (c :: discoveredAddrs rest).Nodup :=
                  hconsAddrs ▸ hnd
                exact (List.nodup_cons.mp hnd1).2
          rw [@List.find?_cons_of_neg RawPair
            (fun x => decide (x.pairAddress = some a)) r0 rest (by simp [h0])]
          exact ih hnd2 hmem

/-- Per-address characterisation of the collector.js discovery merge. -/
theorem mergeDiscovery_lookup (st : Store) (raws : List RawPair) (now : ℤ)
    (a : String) (hnd : (discoveredAddrs raws).Nodup) :
    lookupStore (mergeDiscovery st raws now) a =
      match raws.find? (fun r => decide (r.pairAddress = some a)),
            lookupStore st a with
      | none, _ => none
      | some r, some p => some (refreshFromDiscovery p r now)
      | some r, none => some (parsePairFromDiscovery r now) := by
  unfold mergeDiscovery
  rw [lookupStore_filter_mem, foldl_discStep_lookup now raws st a hnd]
  by_cases hmem : a ∈ discoveredAddrs raws
  · rw [if_pos hmem]
    cases hf : raws.find? (fun r => decide (r.pairAddress = some a)) with
    | none => exact absurd hmem ((find?_pairAddress_eq_none raws a).mp hf)
    | some r => cases lookupStore st a <;> rfl
  · rw [if_neg hmem, (find?_pairAddress_eq_none raws a).mpr hmem]

/-- C2 (amended): one discovery merge makes the tracked address set exactly
the discovered address set — addresses missing from the result are removed,
newly discovered addresses are inserted with their indicator fields unset,
and an address that was already tracked keeps all four indicator fields
unchanged while its live market fields (price, market cap, liquidity,
volume, price change, image) are refreshed from the new record where the
record provides them. -/
theorem mergeDiscovery_semantics (st : Store) (raws : List RawPair)
    (now : ℤ) (a b : String) (r : RawPair) (p : PairData)
    (hnd : (discoveredAddrs raws).Nodup) (hr : r ∈ raws)
    (hra : r.pairAddress = some a) (hb : b ∉ discoveredAddrs raws) :
    lookupStore (mergeDiscovery st raws now) b = none
  ∧ (lookupStore (mergeDiscovery st raws now) a).isSome = true
  ∧ (lookupStore st a = none →
      lookupStore (mergeDiscovery st raws now) a =
        some (parsePairFromDiscovery r now))
  ∧ (parsePairFromDiscovery r now).rsi5m = none
  ∧ (parsePairFromDiscovery r now).rsi15m = none
  ∧ (parsePairFromDiscovery r now).ath = none
  ∧ (parsePairFromDiscovery r now).candles5m = []
  ∧ (lookupStore st a = some p →
      lookupStore (mergeDiscovery st raws now) a =
        some (refreshFromDiscovery p r now))
  ∧ (refreshFromDiscovery p r now).rsi5m = p.rsi5m
  ∧ (refreshFromDiscovery p r now).rsi15m = p.rsi15m
  ∧ (refreshFromDiscovery p r now).ath = p.ath
  ∧ (refreshFromDiscovery p r now).candles5m = p.candles5m := by
  have hfind := find?_pairAddress_of_nodup raws a r hnd hr hra
  have hlook := mergeDiscovery_lookup st raws now a hnd
  have hlookb := mergeDiscovery_lookup st raws now b hnd
  rw [(find?_pairAddress_eq_none raws b).mpr hb] at hlookb
  rw [hfind] at hlook
  refine ⟨hlookb, ?_, ?_, rfl, rfl, rfl, rfl, ?_, rfl, rfl, rfl, rfl⟩
  · cases hsa : lookupStore st a <;> rw [hsa] at hlook <;> simp [hlook]
  · intro hnone; rw [hnone] at hlook; exact hlook
  · intro hp; rw [hp] at hlook; exact hlook

/-- A second concrete tracked pair, with indicator fields set. -/
def samplePairB : PairData :=
  { baseTokenSymbol := "BBB"
    baseTokenName := "Token B"
    dexId := "pumpfun"
    url := "https://dexscreener.com/solana/B"
    priceUsd := some 2
    marketCap := some 50000
    liquidity := some 15000
    volume24h := some 100000
    priceChange24h := some (-3)
    pairCreatedAt := some 2000
    imageUrl := some "b.png"
    rsi5m := some 72
    rsi15m := some 31
    ath := some 4
    candles5m := [⟨60, 1, 3, 1, 2, 10⟩]
    updatedAt := 1 }

/-- A discovery record for the already-tracked address `B`, with fresher
market numbers. -/
def rawB : RawPair :=
  { pairAddress := some "B"
    address := none
    chainId := some "solana"
    baseToken := some ("BBB", "Token B")
    dexId := some "pumpfun"
    url := some "https://dexscreener.com/solana/B"
    priceUsd := some 3
    marketCap := some 60000
    fdv := some 58000
    liquidityUsd := some 16000
    volumeH24 := some 110000
    priceChangeH24 := some 4
    pairCreatedAt := some 2000
    imageUrl := some "b.png" }

/-- A discovery record for the brand-new address `C`. -/
def rawC : RawPair :=
  { pairAddress := some "C"
    address := none
    chainId := some "solana"
    baseToken := some ("CCC", "Token C")
    dexId := some "pumpswap"
    url := some "https://dexscreener.com/solana/C"
    priceUsd := some 1
    marketCap := none
    fdv := some 35000
    liquidityUsd := some 11000
    volumeH24 := some 85000
    priceChangeH24 := some 9
    pairCreatedAt := some 5000
    imageUrl := none }

/-- Witness for C2 at the spec's own example: store `{A, B}`, discovery
result `{B, C}`. -/
theorem mergeDiscovery_semantics_witness :
    lookupStore
        (mergeDiscovery [("A", samplePairA), ("B", samplePairB)]
          [rawB, rawC] 7) "A" = none
  ∧ (lookupStore
        (mergeDiscovery [("A", samplePairA), ("B", samplePairB)]
          [rawB, rawC] 7) "B").isSome = true
  ∧ (lookupStore [("A", samplePairA), ("B", samplePairB)] "B" = none →
      lookupStore
          (mergeDiscovery [("A", samplePairA), ("B", samplePairB)]
            [rawB, rawC] 7) "B" = some (parsePairFromDiscovery rawB 7))
  ∧ (parsePairFromDiscovery rawB 7).rsi5m = none
  ∧ (parsePairFromDiscovery rawB 7).rsi15m = none
  ∧ (parsePairFromDiscovery rawB 7).ath = none
  ∧ (parsePairFromDiscovery rawB 7).candles5m = []
  ∧ (lookupStore [("A", samplePairA), ("B", samplePairB)] "B" =
        some samplePairB →
      lookupStore
          (mergeDiscovery [("A", samplePairA), ("B", samplePairB)]
            [rawB, rawC] 7) "B" =
        some (refreshFromDiscovery samplePairB rawB 7))
  ∧ (refreshFromDiscovery samplePairB rawB 7).rsi5m = samplePairB.rsi5m
  ∧ (refreshFromDiscovery samplePairB rawB 7).rsi15m = samplePairB.rsi15m
  ∧ (refreshFromDiscovery samplePairB rawB 7).ath = samplePairB.ath
  ∧ (refreshFromDiscovery samplePairB rawB 7).candles5m =
      samplePairB.candles5m :=
  mergeDiscovery_semantics [("A", samplePairA), ("B", samplePairB)]
    [rawB, rawC] 7 "B" "A" rawB samplePairB (by decide)
    (List.mem_cons_self rawB [rawC]) (by decide) (by decide)

/-- The `B` record as first tracked in the part_002 revision: stale market
cap `1`. -/
def stalePairB : PairData :=
  { samplePairB with marketCap := some 1, updatedAt := 0 }

/-- A later discovery record for `B` carrying market cap `2`. -/
def freshRawB : RawPair :=
  { rawB with marketCap := some 2, fdv := some 2 }

/-- Counterexample to C2 as stated: in the part_002 revision of
`runDiscovery` an address that is both tracked and discovered is left
completely untouched — its merge loop has no refresh branch — so the
stale market cap `1` survives a discovery record carrying market cap `2`,
and the record is not the refreshed one the claim demands. -/
theorem mergeDiscoveryV0_no_refresh :
    mergeDiscoveryV0 [("B", stalePairB)] [freshRawB] 9 = [("B", stalePairB)]
  ∧ stalePairB.marketCap = some 1
  ∧ freshRawB.marketCap = some 2
  ∧ (refreshFromDiscovery stalePairB freshRawB 9).marketCap = some 2
  ∧ refreshFromDiscovery stalePairB freshRawB 9 ≠ stalePairB := by
  refine ⟨by decide, rfl, rfl, by decide, by decide⟩

/-! ### Aggregate stats: `getStats` (collector.js lines 31–43)

The pass-through globals (`collectorStatus` and the timestamps) are omitted;
the claim concerns the derived numeric fields. -/

/-- The derived part of the stats object. -/
structure Stats where
  totalPairs : ℕ
  overbought : ℕ
  oversold : ℕ
  avgRsi : Option ℚ
  deriving DecidableEq, Repr

/-- `+x.toFixed(1)`: round to the nearest tenth, ties towards the larger
value (ES `toFixed` picks the larger candidate on a tie). -/
def toFixed1 (x : ℚ) : ℚ := (⌊10 * x + 1 / 2⌋ : ℚ) / 10

/-- `getStats` over the tracked pairs: every RSI aggregate is computed from
the known `rsi5m` values, and `avgRsi` is `null` when there are none. -/
def getStats (ps : List PairData) : Stats :=
  let rsi := ps.filterMap PairData.rsi5m
  { totalPairs := ps.length
    overbought := (rsi.filter fun r => decide (70 < r)).length
    oversold := (rsi.filter fun r => decide (r < 30)).length
    avgRsi :=
      if rsi.length = 0 then none
      else some (toFixed1 (rsi.sum / (rsi.length : ℚ))) }

theorem filterMap_rsi5m_filter_length (q : ℚ → Bool) (ps : List PairData) :
    ((ps.filterMap PairData.rsi5m).filter q).length =
      (ps.filter fun p => (p.rsi5m.map q).getD false).length := by
  induction ps with
  | nil => rfl
  | cons p rest ih =>
      cases h : p.rsi5m with
      | none => simp [List.filterMap_cons, List.filter_cons, h, ih]
      | some r =>
          by_cases hq : q r <;>
            simp [List.filterMap_cons, List.filter_cons, h, hq, ih]

/-- C10: `getStats` derives its overbought count (RSI > 70), oversold count
(RSI < 30) and mean RSI from the 5-minute RSI values alone — changing every
pair's 15-minute RSI arbitrarily leaves the stats unchanged — and when no
tracked pair has a known 5-minute RSI, `avgRsi` is the `null` sentinel. -/
theorem getStats_rsi5m_only (ps : List PairData)
    (f : PairData → Option ℚ) :
    getStats (ps.map fun p => { p with rsi15m := f p }) = getStats ps
  ∧ (getStats ps).overbought =
      (ps.filter fun p =>
        (p.rsi5m.map fun r => decide (70 < r)).getD false).length
  ∧ (getStats ps).oversold =
      (ps.filter fun p =>
        (p.rsi5m.map fun r => decide (r < 30)).getD false).length
  ∧ ((getStats ps).avgRsi = none ↔ ∀ p ∈ ps, p.rsi5m = none) := by
  refine ⟨?_, ?_, ?_, ?_⟩
  · have hcomp : (PairData.rsi5m ∘ fun p => { p with rsi15m := f p }) =
        PairData.rsi5m := rfl
    simp only [getStats, List.filterMap_map, hcomp, List.length_map]
  · exact filterMap_rsi5m_filter_length (fun r => decide (70 < r)) ps
  · exact filterMap_rsi5m_filter_length (fun r => decide (r < 30)) ps
  · constructor
    · intro h
      have hlen : (ps.filterMap PairData.rsi5m).length = 0 := by
        by_contra hc
        simp [getStats, hc] at h
      exact List.filterMap_eq_nil.mp (List.length_eq_zero.mp hlen)
    · intro hall
      have hnil : ps.filterMap PairData.rsi5m = [] :=
        List.filterMap_eq_nil.mpr hall
      simp [getStats, hnil]

/-! ### ATH tracking: `runOhlcvUpdate` (collector.js lines 227–229) -/

/-- `Math.max(...highs)` for the nonempty candle batch (the code path is
guarded by `if (!ohlcvList.length)`); defined as 0 on `[]`, which the code
never reaches. -/
def maxListQ : List ℚ → ℚ
  | [] => 0
  | h :: t => t.foldl max h

/-- The two ATH statements of `runOhlcvUpdate`:
`if (p.ath == null || maxH > p.ath) p.ath = maxH;` then
`if (p.priceUsd && p.priceUsd > p.ath) p.ath = p.priceUsd;`.
The returned rational is the stored `p.ath` after the update; note the JS
truthiness test — a live price of exactly 0 is falsy and is skipped. -/
def updateATH (ath : Option ℚ) (highs : List ℚ) (priceUsd : Option ℚ) :
    ℚ :=
  let maxH := maxListQ highs
  let a1 : ℚ :=
    match ath with
    | none => maxH
    | some a => if a < maxH then maxH else a
  match priceUsd with
  | none => a1
  | some pr => if pr ≠ 0 ∧ a1 < pr then pr else a1

/-- `trackATH` as the spec words it:
`max(existingATH or −∞, max(candleHighs), livePrice or −∞)`. -/
def trackATH (ath : Option ℚ) (highs : List ℚ) (price : Option ℚ) : ℚ :=
  let base := maxListQ highs
  let b1 := match ath with | none => base | some a => max a base
  match price with | none => b1 | some pr => max b1 pr

/-- The ATH value the code actually maintains: `trackATH`, except that a
live price of exactly 0 is ignored. -/
def trackATHCode (ath : Option ℚ) (highs : List ℚ) (price : Option ℚ) :
    ℚ :=
  trackATH ath highs (if price = some 0 then none else price)

/-- A pair's stored ATH across a sequence of OHLCV ticks, each carrying a
candle-high batch and a live price. -/
def runAthUpdates (ath : Option ℚ) (steps : List (List ℚ × Option ℚ)) :
    Option ℚ :=
  steps.foldl (fun a s => some (updateATH a s.1 s.2)) ath

theorem ite_lt_max (a b : ℚ) : (if a < b then b else a) = max a b := by
  rcases le_or_lt b a with h | h
  · rw [if_neg (not_lt.mpr h), max_eq_left h]
  · rw [if_pos h, max_eq_right h.le]

theorem updateATH_eq_trackATHCode (ath : Option ℚ) (highs : List ℚ)
    (price : Option ℚ) :
    updateATH ath highs price = trackATHCode ath highs price := by
  unfold updateATH trackATHCode trackATH
  cases ath with
  | none =>
      cases price with
      | none => simp
      | some pr => by_cases hpr : pr = 0 <;> simp [hpr, ite_lt_max]
  | some a =>
      cases price with
      | none => simp [ite_lt_max]
      | some pr =>
          by_cases hpr : pr = 0
          · simp [hpr, ite_lt_max]
          · simp [hpr, ite_lt_max]
            by_cases hlt : a < pr ∧ maxListQ highs < pr
            · rw [if_pos hlt]
              exact (max_eq_right (max_le hlt.1.le hlt.2.le)).symm
            · rw [if_neg hlt]
              have hle : pr ≤ a ⊔ maxListQ highs := by
                rcases not_and_or.mp hlt with h | h
                · exact le_trans (not_lt.mp h) (le_max_left _ _)
                · exact le_trans (not_lt.mp h) (le_max_right _ _)
              exact (max_eq_left hle).symm

theorem updateATH_ge (a0 : ℚ) (highs : List ℚ) (price : Option ℚ) :
    a0 ≤ updateATH (some a0) highs price := by
  have h1 : a0 ≤ (if a0 < maxListQ highs then maxListQ highs else a0) := by
    split_ifs with h
    · exact h.le
    · exact le_refl a0
  cases price with
  | none =>
      show a0 ≤ (if a0 < maxListQ highs then maxListQ highs else a0)
      exact h1
  | some pr =>
      show a0 ≤ (if pr ≠ 0 ∧
          (if a0 < maxListQ highs then maxListQ highs else a0) < pr then pr
        else if a0 < maxListQ highs then maxListQ highs else a0)
      by_cases h2 : pr ≠ 0 ∧
          (if a0 < maxListQ highs then maxListQ highs else a0) < pr
      · rw [if_pos h2]; exact h1.trans h2.2.le
      · rw [if_neg h2]; exact h1

theorem runAthUpdates_ge (steps : List (List ℚ × Option ℚ)) (a0 : ℚ) :
    ∃ b, runAthUpdates (some a0) steps = some b ∧ a0 ≤ b := by
  induction steps generalizing a0 with
  | nil => exact ⟨a0, rfl, le_refl a0⟩
  | cons s rest ih =>
      obtain ⟨b, hb, hab⟩ := ih (updateATH (some a0) s.1 s.2)
      exact ⟨b, hb, (updateATH_ge a0 s.1 s.2).trans hab⟩

/-- C4 (amended): on an OHLCV update with a nonempty candle batch the
stored ATH becomes the maximum of the previous ATH (if any — the formula
holds whether or not an ATH was previously set), the maximum candle high,
and the live price when present and nonzero — a live price of exactly 0 is
skipped by the JS truthiness test — and across any sequence of updates an
ATH, once set, stays set and never decreases. -/
theorem updateATH_spec (ath : Option ℚ) (highs : List ℚ)
    (price : Option ℚ) (a0 : ℚ) (steps : List (List ℚ × Option ℚ))
    (hne : highs ≠ []) :
    updateATH ath highs price = trackATHCode ath highs price
  ∧ (ath = some a0 → (runAthUpdates ath steps).isSome = true)
  ∧ (ath = some a0 → a0 ≤ (runAthUpdates ath steps).getD a0) := by
  refine ⟨updateATH_eq_trackATHCode ath highs price, ?_, ?_⟩
  · intro ha
    subst ha
    obtain ⟨b, hb, _⟩ := runAthUpdates_ge steps a0
    rw [hb]
    rfl
  · intro ha
    subst ha
    obtain ⟨b, hb, hab⟩ := runAthUpdates_ge steps a0
    rw [hb]
    exact hab

/-- Witness for C4 at a concrete run: prior ATH 2, candle highs `[3]`, live
price 1, then two further ticks; every antecedent holds at this input. -/
theorem updateATH_spec_witness :
    updateATH (some 2) [3] (some 1) = trackATHCode (some 2) [3] (some 1)
  ∧ ((some 2 : Option ℚ) = some 2 →
      (runAthUpdates (some 2) [([4], none), ([1], some 5)]).isSome = true)
  ∧ ((some 2 : Option ℚ) = some 2 →
      (2 : ℚ) ≤ (runAthUpdates (some 2)
        [([4], none), ([1], some 5)]).getD 2) :=
  updateATH_spec (some 2) [3] (some 1) 2 [([4], none), ([1], some 5)]
    (by decide)

/-- Counterexample to C4 as stated: with no prior ATH, candle highs `[-5]`
and live price exactly 0, the claimed maximum is 0, but the code's
truthiness test `if (p.priceUsd && ...)` skips a zero price and stores
`-5`. -/
theorem updateATH_zero_price_cex :
    updateATH none [(-5 : ℚ)] (some 0) = -5
  ∧ trackATH none [(-5 : ℚ)] (some 0) = 0
  ∧ updateATH none [(-5 : ℚ)] (some 0) ≠
      trackATH none [(-5 : ℚ)] (some 0) := by
  refine ⟨by decide, by decide, by decide⟩

/-! ### DiscoveryFilter: the strict acceptance predicates (fetcher.js)

Two revisions are in scope: the search-based `discoverPairs` filter
(src/server/src/fetcher.js lines 85–106, `?? 0` defaults throughout) and
the token-profiles revision (src/README.md lines 208–229), whose liquidity
check is `liq != null && liq < 10000`. -/

/-- `.toLowerCase()` modelled at the character-list level (ASCII lowering,
which covers the venue ids involved). -/
def toLowerStr (s : String) : String := String.mk (s.data.map Char.toLower)

/-- 48 hours in ms (search filter's minimum age). -/
def minAgeSearch : ℤ := 48 * 3600000

/-- 480 hours in ms (search filter's maximum age). -/
def maxAgeSearch : ℤ := 480 * 3600000

/-- 2 hours in ms (profiles filter's minimum age). -/
def minAgeProfiles : ℤ := 2 * 3600000

/-- 1000 hours in ms (profiles filter's maximum age). -/
def maxAgeProfiles : ℤ := 1000 * 3600000

/-- The search-based `discoverPairs` acceptance predicate: every required
numeric field defaults to 0 when absent (`?? 0`) and then fails its
threshold; a missing or zero creation timestamp is rejected by
`if (!createdAt)`. -/
def acceptPair (now : ℤ) (p : RawPair) : Bool :=
  if p.chainId ≠ some "solana" then false
  else
    let dex := toLowerStr (p.dexId.getD "")
    if dex ≠ "pumpswap" ∧ dex ≠ "pumpfun" then false
    else if p.liquidityUsd.getD 0 < 10000 then false
    else if p.fdv.getD 0 < 30000 then false
    else if p.volumeH24.getD 0 < 50000 then false
    else
      let createdAt := p.pairCreatedAt.getD 0
      if createdAt = 0 then false
      else
        let ageMs := now - createdAt
        if ageMs < minAgeSearch ∨ ageMs > maxAgeSearch then false
        else true

/-- The token-profiles revision's acceptance predicate: identical shape,
but the liquidity check `liq != null && liq < 10000` lets a record with a
missing liquidity field through, and the age window is 2–1000 hours. -/
def acceptPairProfiles (now : ℤ) (p : RawPair) : Bool :=
  if p.chainId ≠ some "solana" then false
  else
    let dex := toLowerStr (p.dexId.getD "")
    if dex ≠ "pumpswap" ∧ dex ≠ "pumpfun" then false
    else if (match p.liquidityUsd with
        | some l => decide (l < 10000)
        | none => false) then false
    else if p.fdv.getD 0 < 30000 then false
    else if p.volumeH24.getD 0 < 50000 then false
    else
      let createdAt := p.pairCreatedAt.getD 0
      if createdAt = 0 then false
      else
        let ageMs := now - createdAt
        if ageMs < minAgeProfiles ∨ ageMs > maxAgeProfiles then false
        else true

/-- C6 (amended): in the search-based filter, a record missing any required
field (chain id, venue id, liquidity, valuation, 24h volume, creation
timestamp) is excluded — the substituted `?? 0` default always fails the
threshold.  In the token-profiles revision the same holds for every
required field except liquidity: its check is skipped when the field is
missing, so such a record can be accepted. -/
theorem discovery_filter_strict (now : ℤ) (p : RawPair) :
    ((p.chainId = none ∨ p.dexId = none ∨ p.liquidityUsd = none
        ∨ p.fdv = none ∨ p.volumeH24 = none ∨ p.pairCreatedAt = none) →
      acceptPair now p = false)
  ∧ ((p.chainId = none ∨ p.dexId = none ∨ p.fdv = none
        ∨ p.volumeH24 = none ∨ p.pairCreatedAt = none) →
      acceptPairProfiles now p = false) := by
  constructor
  · intro h
    rcases h with h | h | h | h | h | h <;>
      simp +decide [acceptPair, h]
  · intro h
    rcases h with h | h | h | h | h <;>
      simp +decide [acceptPairProfiles, h]

/-- A candidate with no fields at all. -/
def rawEmpty : RawPair :=
  { pairAddress := none
    address := none
    chainId := none
    baseToken := none
    dexId := none
    url := none
    priceUsd := none
    marketCap := none
    fdv := none
    liquidityUsd := none
    volumeH24 := none
    priceChangeH24 := none
    pairCreatedAt := none
    imageUrl := none }

/-- Witness for C6: the all-fields-missing record is excluded by both
filter revisions. -/
theorem discovery_filter_strict_witness :
    acceptPair 0 rawEmpty = false
  ∧ acceptPairProfiles 0 rawEmpty = false :=
  ⟨(discovery_filter_strict 0 rawEmpty).1 (Or.inl rfl),
   (discovery_filter_strict 0 rawEmpty).2 (Or.inl rfl)⟩

/-- A Solana pumpfun candidate whose liquidity field is missing but whose
other fields pass every threshold (age 3 h at `now = 14400000`). -/
def rawMissingLiq : RawPair :=
  { rawEmpty with
    pairAddress := some "L"
    chainId := some "solana"
    dexId := some "pumpfun"
    fdv := some 50000
    volumeH24 := some 60000
    pairCreatedAt := some 3600000 }

/-- Counterexample to C6 as stated: the token-profiles filter revision
accepts a record whose required liquidity field is missing — the
`liq != null && liq < 10000` check passes vacuously. -/
theorem acceptPairProfiles_missing_liquidity_cex :
    rawMissingLiq.liquidityUsd = none
  ∧ acceptPairProfiles 14400000 rawMissingLiq = true := by
  exact ⟨rfl, by decide⟩

/-! ### RateLimiter: `TokenBucketLimiter` (rateLimiter.js)

`acquire()` is split at its only `await` point into two atomic segments
(Node's event loop interleaves only there): `start` covers the
refill-and-test prefix (consuming a token when one is available and
otherwise suspending with no further state change), and `resume` covers the
post-wait suffix, which refills and then decrements unconditionally.
A `resume` is only reachable for a caller whose `start` hit the wait
branch, after its computed delay; two suspended callers may both resume. -/

/-- Limiter state: `this.maxTokens / this.refillRate / this.tokens /
this.lastRefill` (ms clock, rate in tokens per second). -/
structure Bucket where
  maxTokens : ℚ
  refillRate : ℚ
  tokens : ℚ
  lastRefill : ℚ
  deriving DecidableEq, Repr

/-- `_refill()`: elapsed wall time × rate, capped at capacity. -/
def refillB (b : Bucket) (now : ℚ) : Bucket :=
  { b with
    tokens := min b.maxTokens
      (b.tokens + ((now - b.lastRefill) / 1000) * b.refillRate)
    lastRefill := now }

/-- The two atomic segments of `acquire()`. -/
inductive BucketOp where
  | start (now : ℚ)
  | resume (now : ℚ)
  deriving DecidableEq, Repr

/-- The wall-clock time at which a segment runs. -/
def opTime : BucketOp → ℚ
  | .start t => t
  | .resume t => t

/-- Whether a segment is a pre-wait `start`. -/
def isStart : BucketOp → Bool
  | .start _ => true
  | .resume _ => false

/-- Execute one atomic segment against the limiter state. -/
def applyBucketOp (b : Bucket) : BucketOp → Bucket
  | .start now =>
      let b2 := refillB b now
      if 1 ≤ b2.tokens then { b2 with tokens := b2.tokens - 1 } else b2
  | .resume now =>
      let b2 := refillB b now
      { b2 with tokens := b2.tokens - 1 }

/-- Run a sequence of segments. -/
def runBucket (b : Bucket) (ops : List BucketOp) : Bucket :=
  ops.foldl applyBucketOp b

/-- The segment times are non-decreasing starting from a given clock. -/
def timesMono : ℚ → List BucketOp → Bool
  | _, [] => true
  | t, op :: rest => decide (t ≤ opTime op) && timesMono (opTime op) rest

theorem refillB_tokens_le (b : Bucket) (now : ℚ) :
    (refillB b now).tokens ≤ b.maxTokens := by
  show min b.maxTokens
    (b.tokens + ((now - b.lastRefill) / 1000) * b.refillRate) ≤ b.maxTokens
  exact min_le_left _ _

theorem applyBucketOp_frame (b : Bucket) (op : BucketOp) :
    (applyBucketOp b op).maxTokens = b.maxTokens
  ∧ (applyBucketOp b op).refillRate = b.refillRate
  ∧ (applyBucketOp b op).lastRefill = opTime op := by
  cases op with
  | start now =>
      simp only [applyBucketOp]
      split_ifs <;> exact ⟨rfl, rfl, rfl⟩
  | resume now => exact ⟨rfl, rfl, rfl⟩

theorem applyBucketOp_tokens_le (b : Bucket) (op : BucketOp) :
    (applyBucketOp b op).tokens ≤ b.maxTokens := by
  cases op with
  | start now =>
      simp only [applyBucketOp]
      split_ifs with h
      · show (refillB b now).tokens - 1 ≤ b.maxTokens
        have hmin := refillB_tokens_le b now
        linarith
      · exact refillB_tokens_le b now
  | resume now =>
      show (refillB b now).tokens - 1 ≤ b.maxTokens
      have hmin := refillB_tokens_le b now
      linarith

theorem runBucket_tokens_le (b : Bucket) (ops : List BucketOp)
    (h : b.tokens ≤ b.maxTokens) :
    (runBucket b ops).tokens ≤ b.maxTokens := by
  induction ops generalizing b with
  | nil => exact h
  | cons op rest ih =>
      have hstep := applyBucketOp_tokens_le b op
      have hmax := (applyBucketOp_frame b op).1
      have := ih (applyBucketOp b op) (by rw [hmax]; exact hstep)
      rw [hmax] at this
      exact this

theorem applyBucketOp_start_nonneg (b : Bucket) (now : ℚ)
    (hmax : 0 ≤ b.maxTokens) (hrate : 0 ≤ b.refillRate)
    (htok : 0 ≤ b.tokens) (hnow : b.lastRefill ≤ now) :
    0 ≤ (applyBucketOp b (.start now)).tokens := by
  have hrf : 0 ≤ (refillB b now).tokens := by
    show 0 ≤ min b.maxTokens
      (b.tokens + ((now - b.lastRefill) / 1000) * b.refillRate)
    have : 0 ≤ ((now - b.lastRefill) / 1000) * b.refillRate := by
      apply mul_nonneg _ hrate
      apply div_nonneg _ (by norm_num)
      linarith
    exact le_min hmax (by linarith)
  simp only [applyBucketOp]
  split_ifs with h
  · show 0 ≤ (refillB b now).tokens - 1
    linarith
  · exact hrf

theorem runBucket_start_only_nonneg (b : Bucket) (ops : List BucketOp)
    (hmax : 0 ≤ b.maxTokens) (hrate : 0 ≤ b.refillRate)
    (htok : 0 ≤ b.tokens) (hmono : timesMono b.lastRefill ops = true)
    (hst : ∀ op ∈ ops, isStart op = true) :
    0 ≤ (runBucket b ops).tokens := by
  induction ops generalizing b with
  | nil => exact htok
  | cons op rest ih =>
      cases op with
      | resume now =>
          exact absurd (hst _ (List.mem_cons_self _ _)) (by simp [isStart])
      | start now =>
          have hmono1 : b.lastRefill ≤ now ∧
              timesMono now rest = true := by
            have := hmono
            simp only [timesMono, opTime, Bool.and_eq_true,
              decide_eq_true_eq] at this
            exact this
          have hframe := applyBucketOp_frame b (.start now)
          apply ih (applyBucketOp b (.start now))
          · rw [hframe.1]; exact hmax
          · rw [hframe.2.1]; exact hrate
          · exact applyBucketOp_start_nonneg b now hmax hrate htok hmono1.1
          · rw [hframe.2.2]; exact hmono1.2
          · exact fun o ho => hst o (List.mem_cons_of_mem _ ho)

/-- C7 (amended): for every limiter and every segment sequence the token
count never exceeds the capacity; and along any time-monotone trace in
which every `acquire()` is satisfied immediately (no caller enters the wait
branch), the count also never drops below 0.  With suspended callers the
lower bound fails — see the counterexample. -/
theorem tokenBucket_bounds (b : Bucket) (ops : List BucketOp) :
    (b.tokens ≤ b.maxTokens → (runBucket b ops).tokens ≤ b.maxTokens)
  ∧ (0 ≤ b.maxTokens → 0 ≤ b.refillRate → 0 ≤ b.tokens →
      timesMono b.lastRefill ops = true →
      (∀ op ∈ ops, isStart op = true) →
      0 ≤ (runBucket b ops).tokens) :=
  ⟨runBucket_tokens_le b ops,
   fun hmax hrate htok hmono hst =>
     runBucket_start_only_nonneg b ops hmax hrate htok hmono hst⟩

/-- Witness for C7: a fresh 10-token limiter (the Dexscreener instance)
through three immediate acquisitions. -/
theorem tokenBucket_bounds_witness :
    ((10 : ℚ) ≤ 10 →
      (runBucket ⟨10, 2, 10, 0⟩
        [.start 0, .start 100, .start 200]).tokens ≤ 10)
  ∧ ((0 : ℚ) ≤ 10 → (0 : ℚ) ≤ 2 → (0 : ℚ) ≤ 10 →
      timesMono 0 [.start 0, .start 100, .start 200] = true →
      (∀ op ∈ ([.start 0, .start 100, .start 200] : List BucketOp),
        isStart op = true) →
      0 ≤ (runBucket ⟨10, 2, 10, 0⟩
        [.start 0, .start 100, .start 200]).tokens) :=
  tokenBucket_bounds ⟨10, 2, 10, 0⟩ [.start 0, .start 100, .start 200]

/-- Counterexample to C7 as stated: two callers suspend on an empty
one-token bucket at time 0 (each computes a 1000 ms wait) and both resume
at time 1000; the first consumes the single refilled token, the second's
unconditional post-wait decrement drives the count to −1 < 0. -/
theorem tokenBucket_negative_cex :
    (runBucket ⟨1, 1, 1, 0⟩
      [.start 0, .start 0, .start 0, .resume 1000, .resume 1000]).tokens
      = -1 := by
  norm_num [runBucket, applyBucketOp, refillB, List.foldl]

/-! ### Fetcher: `fetchWithRetry` (fetcher.js lines 6–32)

The attempt loop is embedded over an oracle `att : ℕ → Except ε α` giving
each attempt's outcome (a successful body or the error it threw); the
returned list collects the backoff delays actually slept, in order. -/

/-- `BASE_DELAY * Math.pow(2, attempt)`. -/
def backoffDelay (base attempt : ℕ) : ℕ := base * 2 ^ attempt

/-- The loop body from attempt number `attempt` on: return on success,
rethrow on the final attempt, otherwise sleep `base × 2^attempt` ms and
retry. -/
def retryFrom {ε α : Type} (att : ℕ → Except ε α) (base retries attempt : ℕ) :
    Except ε α × List ℕ :=
  match att attempt with
  | .ok v => (.ok v, [])
  | .error e =>
      if h : retries ≤ attempt then (.error e, [])
      else
        let rest := retryFrom att base retries (attempt + 1)
        (rest.1, backoffDelay base attempt :: rest.2)
termination_by retries - attempt
decreasing_by omega

/-- `fetchWithRetry(url, limiter, retries)`: attempts `0 .. retries`. -/
def fetchWithRetry {ε α : Type} (att : ℕ → Except ε α) (base retries : ℕ) :
    Except ε α × List ℕ :=
  retryFrom att base retries 0

theorem retryFrom_allfail {ε α : Type} (att : ℕ → Except ε α) (e : ℕ → ε)
    (base retries : ℕ) :
    ∀ n attempt, retries - attempt = n → attempt ≤ retries →
    (∀ i, attempt ≤ i → i ≤ retries → att i = .error (e i)) →
    retryFrom att base retries attempt =
      (.error (e retries),
       (List.range' attempt (retries - attempt)).map (backoffDelay base)) := by
  intro n
  induction n with
  | zero =>
      intro attempt hn hle hatt
      have heq : attempt = retries := by omega
      rw [retryFrom, hatt attempt (le_refl _) hle]
      dsimp only
      rw [dif_pos (show retries ≤ attempt by omega), hn, heq]
      rfl
  | succ n ih =>
      intro attempt hn hle hatt
      rw [retryFrom, hatt attempt (le_refl _) hle]
      dsimp only
      rw [dif_neg (show ¬ retries ≤ attempt by omega)]
      have hrec := ih (attempt + 1) (by omega) (by omega)
        (fun i hi1 hi2 => hatt i (by omega) hi2)
      rw [hrec]
      have hrange : List.range' attempt (retries - attempt) =
          attempt :: List.range' (attempt + 1) (retries - (attempt + 1)) := by
        have h10 : retries - attempt = (retries - (attempt + 1)) + 1 := by
          omega
        rw [h10, List.range'_succ]
      rw [hrange]
      rfl

theorem retryFrom_success {ε α : Type} (att : ℕ → Except ε α) (e : ℕ → ε)
    (base retries k : ℕ) (v : α) :
    ∀ n attempt, k - attempt = n → attempt ≤ k → k ≤ retries →
    (∀ i, attempt ≤ i → i < k → att i = .error (e i)) →
    att k = .ok v →
    retryFrom att base retries attempt =
      (.ok v, (List.range' attempt (k - attempt)).map (backoffDelay base)) := by
  intro n
  induction n with
  | zero =>
      intro attempt hn hle hkr hatt hok
      have heq : attempt = k := by omega
      rw [retryFrom, show att attempt = .ok v from by rw [heq]; exact hok]
      dsimp only
      rw [hn]
      rfl
  | succ n ih =>
      intro attempt hn hle hkr hatt hok
      have hlt : attempt < k := by omega
      rw [retryFrom, hatt attempt (le_refl _) hlt]
      dsimp only
      rw [dif_neg (show ¬ retries ≤ attempt by omega)]
      have hrec := ih (attempt + 1) (by omega) (by omega) hkr
        (fun i hi1 hi2 => hatt i (by omega) hi2) hok
      rw [hrec]
      have hrange : List.range' attempt (k - attempt) =
          attempt :: List.range' (attempt + 1) (k - (attempt + 1)) := by
        have h10 : k - attempt = (k - (attempt + 1)) + 1 := by omega
        rw [h10, List.range'_succ]
      rw [hrange]
      rfl

/-- C8: while attempts remain, `fetchWithRetry` sleeps exactly
`base × 2^attempt` ms after the failed attempt numbered `attempt` (so a run
that first succeeds at attempt `k` sleeps `base·2^0, …, base·2^(k−1)`), and
when the final attempt (number `retries`) fails it propagates the last
failure to the caller as the raised error rather than returning a value. -/
theorem fetchWithRetry_spec {ε α : Type} (att : ℕ → Except ε α) (e : ℕ → ε)
    (base retries k : ℕ) (v : α) :
    ((∀ i, i ≤ retries → att i = .error (e i)) →
      fetchWithRetry att base retries =
        (.error (e retries), (List.range retries).map (backoffDelay base)))
  ∧ (k ≤ retries → (∀ i, i < k → att i = .error (e i)) → att k = .ok v →
      fetchWithRetry att base retries =
        (.ok v, (List.range k).map (backoffDelay base))) := by
  constructor
  · intro hatt
    have h := retryFrom_allfail att e base retries retries 0 (by omega)
      (by omega) (fun i _ hi2 => hatt i hi2)
    rw [fetchWithRetry, h, Nat.sub_zero, List.range_eq_range']
  · intro hk hfail hok
    have h := retryFrom_success att e base retries k v k 0 (by omega)
      (by omega) hk (fun i _ hi2 => hfail i hi2) hok
    rw [fetchWithRetry, h, Nat.sub_zero, List.range_eq_range']

/-- Witness for C8: base 1000 ms, 3 retries.  An always-failing oracle
raises the last error after sleeping 1000, 2000, 4000 ms; an oracle that
succeeds at attempt 2 returns its value after sleeping 1000, 2000 ms. -/
theorem fetchWithRetry_spec_witness :
    fetchWithRetry (fun i => (.error i : Except ℕ ℕ)) 1000 3 =
      (.error 3, [1000, 2000, 4000])
  ∧ fetchWithRetry (fun i => if i < 2 then (.error i : Except ℕ ℕ)
      else .ok 42) 1000 3 = (.ok 42, [1000, 2000]) := by
  constructor
  · have h := (fetchWithRetry_spec (fun i => (.error i : Except ℕ ℕ))
      (fun i => i) 1000 3 0 0).1 (fun i _ => rfl)
    rw [h]; rfl
  · have h := (fetchWithRetry_spec
      (fun i => if i < 2 then (.error i : Except ℕ ℕ) else .ok 42)
      (fun i => i) 1000 3 2 42).2 (by omega)
      (fun i hi => by rw [if_pos hi]) (by rfl)
    rw [h]; rfl

/-! ### Broadcaster / SSE stream (index.js lines 38–43)

The `/api/stream` handler writes the snapshot to the fresh sink and only
then registers it for broadcasts; the whole handler body is synchronous, so
it is one atomic step of the event loop.  `publish` models `broadcast`
(collector.js), which writes an incremental `update` event to every
registered sink; `disconnect` models the `close` handler. -/

/-- The two event kinds a sink can receive (heartbeats, which also follow
the snapshot, are irrelevant to the claim and omitted). -/
inductive SSEEvent where
  | snapshot
  | update
  deriving DecidableEq, Repr

/-- Registered sinks plus, per sink, the events delivered so far (oldest
first). -/
structure StreamState where
  registered : List ℕ
  delivered : ℕ → List SSEEvent

/-- The atomic operations touching the sink set. -/
inductive StreamOp where
  | connect (c : ℕ)
  | publish
  | disconnect (c : ℕ)
  deriving DecidableEq, Repr

/-- Apply one operation: `connect` writes the snapshot synchronously and
then registers; `publish` appends an update to every registered sink;
`disconnect` unregisters. -/
def applyStreamOp (s : StreamState) : StreamOp → StreamState
  | .connect c =>
      { registered := c :: s.registered
        delivered := fun x =>
          if x = c then s.delivered x ++ [SSEEvent.snapshot]
          else s.delivered x }
  | .publish =>
      { s with
        delivered := fun x =>
          if x ∈ s.registered then s.delivered x ++ [SSEEvent.update]
          else s.delivered x }
  | .disconnect c => { s with registered := s.registered.erase c }

/-- The server starts with no sinks and nothing delivered. -/
def initStream : StreamState := { registered := [], delivered := fun _ => [] }

/-- Run an operation sequence from the initial state. -/
def runStream (ops : List StreamOp) : StreamState :=
  ops.foldl applyStreamOp initStream

/-- The invariant carried through the induction: a sink's log is either
empty (never connected) or exactly one snapshot followed by updates. -/
def goodLog (l : List SSEEvent) : Prop :=
  l = [] ∨ ∃ n, l = SSEEvent.snapshot :: List.replicate n SSEEvent.update

theorem stream_invariant (ops : List StreamOp) (c : ℕ) :
    ∀ s : StreamState, goodLog (s.delivered c) →
    (c ∈ s.registered → s.delivered c ≠ []) →
    (ops.count (StreamOp.connect c)
       + (if s.delivered c = [] then 0 else 1) ≤ 1) →
    goodLog ((ops.foldl applyStreamOp s).delivered c) := by
  induction ops with
  | nil => intro s h1 _ _; exact h1
  | cons op rest ih =>
      intro s h1 h2 h3
      rw [List.foldl_cons]
      rw [List.count_cons] at h3
      cases op with
      | connect d =>
          by_cases hdc : d = c
          · subst hdc
            have hself : (StreamOp.connect d == StreamOp.connect d)
                = true := by simp
            rw [hself, if_pos rfl] at h3
            have hcnt : rest.count (StreamOp.connect d) = 0 ∧
                s.delivered d = [] := by
              by_cases hd : s.delivered d = []
              · rw [if_pos hd] at h3
                exact ⟨by omega, hd⟩
              · rw [if_neg hd] at h3
                exact absurd h3 (by omega)
            apply ih
            · show goodLog (if d = d
                  then s.delivered d ++ [SSEEvent.snapshot]
                else s.delivered d)
              rw [if_pos rfl, hcnt.2]
              exact Or.inr ⟨0, rfl⟩
            · intro _
              show (if d = d then s.delivered d ++ [SSEEvent.snapshot]
                else s.delivered d) ≠ []
              rw [if_pos rfl]
              simp
            · show rest.count (StreamOp.connect d) +
                (if (if d = d then s.delivered d ++ [SSEEvent.snapshot]
                    else s.delivered d) = [] then 0 else 1) ≤ 1
              rw [if_pos rfl, hcnt.1]
              have hne2 : s.delivered d ++ [SSEEvent.snapshot] ≠ [] := by
                simp
              rw [if_neg hne2]
          · have hne : (StreamOp.connect d == StreamOp.connect c)
                = false := by simp [hdc]
            have hcd : ¬ c = d := fun h => hdc h.symm
            rw [hne, if_neg (by simp)] at h3
            apply ih
            · show goodLog (if c = d
                  then s.delivered c ++ [SSEEvent.snapshot]
                else s.delivered c)
              rw [if_neg hcd]
              exact h1
            · intro hc
              show (if c = d then s.delivered c ++ [SSEEvent.snapshot]
                else s.delivered c) ≠ []
              rw [if_neg hcd]
              apply h2
              rcases List.mem_cons.mp hc with h | h
              · exact absurd h.symm hdc
              · exact h
            · show rest.count (StreamOp.connect c) +
                (if (if c = d then s.delivered c ++ [SSEEvent.snapshot]
                    else s.delivered c) = [] then 0 else 1) ≤ 1
              rw [if_neg hcd]
              omega
      | publish =>
          have hne : (StreamOp.publish == StreamOp.connect c)
              = false := by simp
          rw [hne, if_neg (by simp)] at h3
          apply ih
          · show goodLog (if c ∈ s.registered
                then s.delivered c ++ [SSEEvent.update] else s.delivered c)
            by_cases hc : c ∈ s.registered
            · rw [if_pos hc]
              rcases h1 with h1 | ⟨n, hn⟩
              · exact absurd h1 (h2 hc)
              · rw [hn]
                refine Or.inr ⟨n + 1, ?_⟩
                rw [List.replicate_succ']
                simp
            · rw [if_neg hc]
              exact h1
          · intro hc
            show (if c ∈ s.registered then s.delivered c ++ [SSEEvent.update]
              else s.delivered c) ≠ []
            by_cases hcs : c ∈ s.registered
            · rw [if_pos hcs]; simp
            · rw [if_neg hcs]; exact h2 hc
          · show rest.count (StreamOp.connect c) +
              (if (if c ∈ s.registered
                  then s.delivered c ++ [SSEEvent.update]
                else s.delivered c) = [] then 0 else 1) ≤ 1
            by_cases hcs : c ∈ s.registered
            · rw [if_pos hcs]
              have hne2 : s.delivered c ++ [SSEEvent.update] ≠ [] := by
                simp
              rw [if_neg hne2]
              have h2c : s.delivered c ≠ [] := h2 hcs
              rw [if_neg h2c] at h3
              omega
            · rw [if_neg hcs]
              omega
      | disconnect d =>
          have hne : (StreamOp.disconnect d == StreamOp.connect c)
              = false := by simp
          rw [hne, if_neg (by simp)] at h3
          apply ih
          · exact h1
          · intro hc
            exact h2 (List.mem_of_mem_erase hc)
          · show rest.count (StreamOp.connect c) +
              (if s.delivered c = [] then 0 else 1) ≤ 1
            omega

/-- C9: along every interleaving of connections, publishes and disconnects
in which a given sink connects at most once, that sink's delivered event
log is empty or consists of exactly one leading full-snapshot event
followed only by incremental updates — in particular an incremental update
is never the first event a newly connected sink receives. -/
theorem stream_snapshot_first (ops : List StreamOp) (c : ℕ)
    (h : ops.count (StreamOp.connect c) ≤ 1) :
    ((runStream ops).delivered c).count SSEEvent.snapshot ≤ 1
  ∧ ((runStream ops).delivered c).head? ≠ some SSEEvent.update := by
  have hinv := stream_invariant ops c initStream (Or.inl rfl)
    (fun hc => absurd hc (by simp [initStream]))
    (by simp [initStream]; omega)
  rcases hinv with hnil | ⟨n, hn⟩
  · rw [runStream] at *
    rw [hnil]
    exact ⟨by simp, by simp⟩
  · rw [runStream] at *
    rw [hn]
    constructor
    · rw [List.count_cons]
      simp [List.count_replicate]
    · simp

/-- Witness for C9: a publish before the connection, two after it, and an
unrelated second sink. -/
theorem stream_snapshot_first_witness :
    ((runStream [.publish, .connect 0, .publish, .connect 1,
        .publish]).delivered 0).count SSEEvent.snapshot ≤ 1
  ∧ ((runStream [.publish, .connect 0, .publish, .connect 1,
        .publish]).delivered 0).head? ≠ some SSEEvent.update :=
  stream_snapshot_first [.publish, .connect 0, .publish, .connect 1,
    .publish] 0 (by decide)

end QBA
